import Mathlib

/-!
Shallow embedding of the `lasr` interactive find-and-replace tool and proofs
about it.  The embedding follows the Rust sources:

* `src/finder.rs` — pattern classification (`is_ast_pattern`), `Finder::new`,
  `RegexFinder::find`, `AstFinder::find`;
* `src/search.rs` — `walk` and the single-threaded loop of `search`;
* `src/tui.rs`   — `App::replace_all` (Commit), `App::update_pattern`,
  and the per-match preview computation of `TextSubstitution::new`;
* `src/input.rs` — `LineInput::handle_key_event`.

Rust strings are modelled as lists of characters, the filesystem as a map
from path strings to optional file contents (`none` = unreadable/missing),
and the external regex engine (the `regex` crate) as a value supplying, for
a fixed compiled pattern and replacement string, the list of non-overlapping
matches found in a text together with each match's expanded replacement.
-/

namespace Lasr

/-- Contents of a Rust `String` / `&str`, as a list of characters. -/
abbrev Text := List Char

/-- `finder.rs` `LineMatch`: one matched unit of text: a line number, the
matched text, and the sub-ranges within that text where the pattern matched. -/
structure LineMatch where
  number : Nat
  text : Text
  ranges : List (Nat × Nat)
  deriving DecidableEq

/-- `finder.rs` `FileMatch`: a path plus the matched lines of that file. -/
structure FileMatch where
  path : String
  lines : List LineMatch
  deriving DecidableEq

/-- `finder.rs` `RegexParams`: options passed to the regex builder. -/
structure RegexParams where
  ignore_case : Bool
  multi_line : Bool
  deriving DecidableEq

/-- A character that can start a metavariable name: the regex class `[A-Z_]`. -/
def isMetaStart (c : Char) : Bool := (decide ('A' ≤ c) && decide (c ≤ 'Z')) || c == '_'

/-- Whether a structural-placeholder token starts at the head of the string:
either `$` followed by `[A-Z_]` (the shortest match of
`\$[A-Z_][A-Z_0-9]*`), or the three-character token `$$$`. -/
def headTok : Text → Bool
  | c :: d :: rest => c == '$' && (isMetaStart d || (d == '$' && rest.head? == some '$'))
  | _ => false

/-- `finder.rs` `is_ast_pattern`: whether the regex
`\$[A-Z_][A-Z_0-9]*|\$\$\$` matches anywhere in the pattern, i.e. whether a
structural-placeholder token occurs at some position. -/
def is_ast_pattern : Text → Bool
  | [] => false
  | c :: rest => headTok (c :: rest) || is_ast_pattern rest

/-- The specification's notion of "contains a structural placeholder token":
at some position the string has `$` followed by a capitalized-metavariable
start character, or the wildcard-arguments token `$$$`. -/
def StructuralToken (p : Text) : Prop :=
  (∃ i c, p.get? i = some '$' ∧ p.get? (i + 1) = some c ∧ isMetaStart c = true) ∨
  (∃ i, p.get? i = some '$' ∧ p.get? (i + 1) = some '$' ∧ p.get? (i + 2) = some '$')

/-- `finder.rs` `Finder`: a tagged union of the two matching strategies.
`R` is the type of compiled regex finders (built by the external regex
engine); an `Ast` finder just stores the pattern string. -/
inductive Finder (R : Type) where
  | Regex (f : R)
  | Ast (pat : Text)
  deriving DecidableEq

/-- `finder.rs` `Finder::new`: if the pattern contains structural placeholder
syntax, always build an `Ast` finder; otherwise attempt regex compilation
(`compile` models `RegexFinder::new`, which fails exactly when the pattern is
not a valid regex) and return `none` on failure. -/
def Finder.new {R : Type} (compile : Text → RegexParams → Option R)
    (pat : Text) (params : RegexParams) : Option (Finder R) :=
  if is_ast_pattern pat then some (.Ast pat)
  else
    match compile pat params with
    | some f => some (.Regex f)
    | none => none

/-- One match reported by the external regex engine for a fixed compiled
pattern and replacement string: the matched byte range `[start, stop)` and
the expanded replacement text for this match (capture references already
substituted, as `Regex::replace_all` would insert it). -/
structure Mtch where
  start : Nat
  stop : Nat
  repl : Text
  deriving DecidableEq

/-- A compiled (regex, replacement) pair, as exposed by the `regex` crate:
`find_iter` lists the non-overlapping matches of the pattern in a text, in
order, each with its expanded replacement. -/
structure Rx where
  find_iter : Text → List Mtch

/-- The slice `t[a..b]` of a text. -/
def listExtract (t : Text) (a b : Nat) : Text := (t.drop a).take (b - a)

/-- Splice a match list into a text: keep the text between matches and
insert each match's expanded replacement.  This is how `Regex::replace_all`
assembles its output from the matches of `find_iter`. -/
def spliceGo (t : Text) : List Mtch → Nat → Text
  | [], last => t.drop last
  | m :: ms, last => listExtract t last m.start ++ m.repl ++ spliceGo t ms m.stop

/-- `Regex::replace_all` (the `regex` crate): replace every non-overlapping
match of the pattern in `t` with its expanded replacement. -/
def Rx.replace_all (rx : Rx) (t : Text) : Text := spliceGo t (rx.find_iter t) 0

/-- Leftmost, non-overlapping occurrences of a literal pattern, scanning the
text left to right; the fuel argument bounds the scan by the text length. -/
def litRangesGo (pat : Text) : Nat → Text → Nat → List (Nat × Nat)
  | 0, _, _ => []
  | _ + 1, [], _ => []
  | fuel + 1, c :: rest, pos =>
    if !pat.isEmpty && pat.isPrefixOf (c :: rest) then
      (pos, pos + pat.length) :: litRangesGo pat fuel ((c :: rest).drop pat.length) (pos + pat.length)
    else
      litRangesGo pat fuel rest (pos + 1)

/-- All leftmost, non-overlapping occurrences of a non-empty literal pattern. -/
def litRanges (pat t : Text) : List (Nat × Nat) := litRangesGo pat t.length t 0

/-- The regex crate's behaviour on a literal pattern (no metacharacters)
with a replacement string containing no capture references: every match is
an occurrence of `pat` and its expansion is the literal `repl`. -/
def litRx (pat repl : Text) : Rx :=
  { find_iter := fun t => (litRanges pat t).map (fun r => ⟨r.1, r.2, repl⟩) }

/-- Word character, the regex class `\w` restricted to ASCII (sufficient for
the texts considered here). -/
def wordChar (c : Char) : Bool := c.isAlphanum || c == '_'

/-- Whether position `i` of `t` holds a word character. -/
def wordAt (t : Text) (i : Nat) : Bool :=
  match t.get? i with
  | some c => wordChar c
  | none => false

/-- The regex crate's word-boundary test at position `i`: exactly one of
the character before `i` and the character at `i` is a word character
(positions outside the text count as non-word). -/
def isWordBoundary (t : Text) (i : Nat) : Bool :=
  match i with
  | 0 => wordAt t 0
  | j + 1 => wordAt t j != wordAt t (j + 1)

/-- The regex crate on the pattern `\Ba` with a fixed expanded replacement
`repl`: a match is a position that is not a word boundary and holds the
character `a`.  All matches have length one, so the leftmost
non-overlapping scan of `find_iter` reports every such position. -/
def rxNonBoundaryA (repl : Text) : Rx :=
  { find_iter := fun t =>
      ((List.range t.length).filter
        (fun i => !isWordBoundary t i && t.get? i == some 'a')).map
        (fun i => ⟨i, i + 1, repl⟩) }

/-- I/O errors observable in the model. -/
inductive IoErr where
  | readFailed (path : String)
  | writeFailed (path : String)
  | walkFailed (msg : String)
  deriving DecidableEq

/-- The filesystem: per path, the file's contents (`none` meaning the file
cannot be read: missing, permission error, not valid UTF-8, ...) and
whether the file can be written (`false` meaning `std::fs::write` fails,
e.g. the file is read-only or was deleted). -/
structure Fs where
  contents : String → Option Text
  writable : String → Bool

/-- A successful `std::fs::write`: overwrite one file's contents. -/
def fsWrite (fs : Fs) (p : String) (t : Text) : Fs :=
  { fs with contents := fun q => if q = p then some t else fs.contents q }

/-- `tui.rs` `Substitution`: one match range of the current regex in a
line's text, with the preview replacement computed for it. -/
structure Substitution where
  range : Nat × Nat
  replacement : Text
  deriving DecidableEq

/-- The per-match preview computation of `TextSubstitution::new`
(`tui.rs`): for each match of the regex in the line text, record its range
and the result of applying `replace_all` to only the matched sub-text. -/
def textSubstitutionMatches (rx : Rx) (text : Text) : List Substitution :=
  (rx.find_iter text).map (fun m =>
    { range := (m.start, m.stop),
      replacement := rx.replace_all (listExtract text m.start m.stop) })

/-- The state of `tui.rs` `App` relevant to commit and pattern updates:
the compiled regex with the current replacement (`re`), the paths of the
cached `FileSubstitution`s (`subs`), the pending search receiver and the
results it will still deliver (`search_rx`), and how many background walks
have been started (`searches`, counting calls to `start_search`). -/
structure AppModel where
  re : Option Rx
  subs : List String
  search_rx : Option (List FileMatch)
  searches : Nat

/-- The per-file loop of `App::replace_all`: read each file
(`std::fs::read_to_string(path)?`), apply `replace_all`, write it back
(`std::fs::write(path, text)?`).  A failed read or a failed write aborts
immediately with that error (the `?` operator), leaving the filesystem as
it was at that point — earlier rewrites persist — and the remaining files
untouched. -/
def replaceFiles (rx : Rx) : List String → Fs → Fs × Option IoErr
  | [], fs => (fs, none)
  | p :: rest, fs =>
    match fs.contents p with
    | none => (fs, some (.readFailed p))
    | some text =>
      if fs.writable p then
        replaceFiles rx rest (fsWrite fs p (rx.replace_all text))
      else
        (fs, some (.writeFailed p))

/-- `tui.rs` `App::replace_all` (Commit): if no regex is set, return
success immediately; otherwise rewrite every cached matched file, then
drain the pending search receiver and rewrite those files too.  Any error
propagates immediately. -/
def App.replace_all (app : AppModel) (fs : Fs) : Fs × Option IoErr :=
  match app.re with
  | none => (fs, none)
  | some rx =>
    match replaceFiles rx app.subs fs with
    | (fs1, some e) => (fs1, some e)
    | (fs1, none) =>
      match app.search_rx with
      | none => (fs1, none)
      | some pending => replaceFiles rx (pending.map (fun f => f.path)) fs1

/-- `tui.rs` `App::update_pattern`: try to compile the edited pattern
(`compile` models `RegexBuilder::build`).  On failure, return early with the
whole state unchanged.  On success, set the new regex, start a new search
(`start_search` bumps the walk counter and replaces the receiver with a
fresh, still-empty one), and clear the accumulated results. -/
def App.update_pattern (compile : Text → Option Rx) (pat : Text)
    (app : AppModel) : AppModel :=
  match compile pat with
  | none => app
  | some re =>
    { app with re := some re, searches := app.searches + 1, search_rx := some [], subs := [] }

instance {ε α : Type} [DecidableEq ε] [DecidableEq α] : DecidableEq (Except ε α)
  | .ok a, .ok b =>
    if h : a = b then isTrue (by rw [h]) else isFalse (by simp [h])
  | .ok _, .error _ => isFalse (by simp)
  | .error _, .ok _ => isFalse (by simp)
  | .error e, .error f =>
    if h : e = f then isTrue (by rw [h]) else isFalse (by simp [h])

/-- One entry yielded to `walk` by the `ignore` crate's walker: the entry's
path and the result of its `metadata()` call (whether it is a regular
file, or the I/O error the call produced). -/
structure DirEntry where
  path : String
  meta : Except IoErr Bool
  deriving DecidableEq

/-- `ignore::WalkState`: whether the walk should continue or stop. -/
inductive WalkState where
  | Continue
  | Quit
  deriving DecidableEq

/-- `search.rs` `walk`: process one walker entry.  Propagate entry and
metadata errors; skip non-files; run the finder; skip files with no
matching lines; otherwise send a `FileMatch` on the channel — if the
receiver was dropped (`txOpen = false`), the send fails and the walk
quits.  The second component is the message sent, if any. -/
def walk (find : String → Except IoErr (List LineMatch))
    (entry : Except IoErr DirEntry) (txOpen : Bool) :
    Except IoErr (WalkState × Option FileMatch) :=
  match entry with
  | .error e => .error e
  | .ok path =>
    match path.meta with
    | .error e => .error e
    | .ok isFile =>
      if !isFile then .ok (.Continue, none)
      else
        match find path.path with
        | .error e => .error e
        | .ok lines =>
          if lines.isEmpty then .ok (.Continue, none)
          else if txOpen then .ok (.Continue, some ⟨path.path, lines⟩)
          else .ok (.Quit, none)

/-- What a run of `search` (single-threaded loop, `search.rs`) did: the
`FileMatch`es sent on the channel, the per-entry errors logged via
`warn!`, and the value returned to the caller. -/
structure SearchOutcome where
  sent : List FileMatch
  logged : List IoErr
  result : Except IoErr Unit
  deriving DecidableEq

/-- The single-threaded loop of `search.rs` `search`, over the stream of
entries produced by the walker (an invalid root path appears in this
stream as an error entry).  `Quit` stops the walk and returns `Ok`;
per-entry errors are logged and the walk continues; the loop always
returns `Ok` to the caller. -/
def searchRun (find : String → Except IoErr (List LineMatch)) (txOpen : Bool) :
    List (Except IoErr DirEntry) → SearchOutcome
  | [] => ⟨[], [], .ok ()⟩
  | entry :: rest =>
    match walk find entry txOpen with
    | .ok (.Quit, _) => ⟨[], [], .ok ()⟩
    | .ok (.Continue, m) =>
      let r := searchRun find txOpen rest
      ⟨m.toList ++ r.sent, r.logged, r.result⟩
    | .error e =>
      let r := searchRun find txOpen rest
      ⟨r.sent, e :: r.logged, r.result⟩

/-- The model of `RegexFinder::find` (`finder.rs`): the grep searcher
yields the (line number, line text) pairs whose line matches; for each,
the finder records the text and the match ranges that the compiled
regex's `find_iter` reports within that text. -/
def regexFinderFind (rangesOf : Text → List (Nat × Nat))
    (searcherLines : List (Nat × Text)) : List LineMatch :=
  searcherLines.map (fun nt => ⟨nt.1, nt.2, rangesOf nt.2⟩)

/-- The model of `AstFinder::find` (`finder.rs`): the structural matcher
yields (start line, matched node text) pairs; for each, the finder records
a single sub-range covering the whole matched text. -/
def astFinderFind (astNodes : List (Nat × Text)) : List LineMatch :=
  astNodes.map (fun nt => ⟨nt.1, nt.2, [(0, nt.2.length)]⟩)

/-- `crossterm` key codes (the constructors used by the key map). -/
inductive KeyCode where
  | Backspace
  | Enter
  | Left
  | Right
  | Up
  | Down
  | Home
  | End
  | PageUp
  | PageDown
  | Tab
  | BackTab
  | Delete
  | Insert
  | Esc
  | F (n : Nat)
  | Char (c : Char)
  deriving DecidableEq

/-- `crossterm` key modifier flags.  `other` stands for the SUPER, HYPER
and META bits together; only emptiness of the non-shift bits is ever
tested. -/
structure Modifiers where
  control : Bool
  alt : Bool
  shift : Bool
  other : Bool
  deriving DecidableEq

/-- A `crossterm` key press event. -/
structure KeyEvent where
  code : KeyCode
  modifiers : Modifiers
  deriving DecidableEq

/-- `config.rs` `Key` and its `From<KeyEvent>` conversion. -/
structure Key where
  code : KeyCode
  modifiers : Modifiers
  deriving DecidableEq

def Key.ofEvent (e : KeyEvent) : Key := ⟨e.code, e.modifiers⟩

/-- `config.rs` `Action`: everything a key can be bound to. -/
inductive Action where
  | Noop
  | Exit
  | Confirm
  | ToggleSearchReplace
  | ToggleIgnoreCase
  | ToggleMultiLine
  | CursorLeft
  | CursorRight
  | CursorHome
  | CursorEnd
  | DeleteChar
  | DeleteCharBackward
  | DeleteWord
  | DeleteToEndOfLine
  | DeleteLine
  | ScrollDown
  | ScrollUp
  | ScrollTop
  deriving DecidableEq

/-- Rust `str::trim_end`: drop trailing whitespace. -/
def trimEnd (l : Text) : Text := (l.reverse.dropWhile Char.isWhitespace).reverse

/-- Rust `str::rfind(char::is_whitespace)`-style search: the index of the
last character satisfying `p`, if any. -/
def rfindIdx (p : Char → Bool) : Text → Option Nat
  | [] => none
  | c :: rest =>
    match rfindIdx p rest with
    | some i => some (i + 1)
    | none => if p c then some 0 else none

/-- Rust `String::insert`: insert a character at position `i`. -/
def insertAt (l : Text) (i : Nat) (c : Char) : Text := l.take i ++ c :: l.drop i

/-- `input.rs` `LineInput`: the edited pattern and the cursor position. -/
structure LineInput where
  pattern : Text
  cursor_pos : Nat
  deriving DecidableEq

/-- `input.rs` `LineInput::handle_key_event`: look the event up in the key
map and apply the bound editing action; events bound to a non-editing
action, or bound to nothing, fall through to plain character insertion
(accepted only when no modifier beyond SHIFT is held).  Returns the new
state and, when the pattern changed, the new pattern. -/
def LineInput.handle_key_event (li : LineInput) (ev : KeyEvent)
    (key_map : Key → Option Action) : LineInput × Option Text :=
  match key_map (Key.ofEvent ev) with
  | some Action.CursorLeft => ({ li with cursor_pos := li.cursor_pos - 1 }, none)
  | some Action.CursorRight =>
    ({ li with cursor_pos := min (li.cursor_pos + 1) li.pattern.length }, none)
  | some Action.CursorHome => ({ li with cursor_pos := 0 }, none)
  | some Action.CursorEnd => ({ li with cursor_pos := li.pattern.length }, none)
  | some Action.DeleteChar =>
    if li.pattern.length ≤ li.cursor_pos then (li, none)
    else
      let p := li.pattern.eraseIdx li.cursor_pos
      ({ li with pattern := p }, some p)
  | some Action.DeleteCharBackward =>
    if li.cursor_pos = 0 then (li, none)
    else
      let p := li.pattern.eraseIdx (li.cursor_pos - 1)
      (⟨p, li.cursor_pos - 1⟩, some p)
  | some Action.DeleteWord =>
    if li.cursor_pos = 0 then (li, none)
    else
      let s := li.pattern.take li.cursor_pos
      let rest := li.pattern.drop li.cursor_pos
      match rfindIdx Char.isWhitespace (trimEnd s) with
      | some idx => (⟨s.take (idx + 1) ++ rest, idx + 1⟩, some (s.take (idx + 1) ++ rest))
      | none => (⟨rest, 0⟩, some rest)
  | some Action.DeleteToEndOfLine =>
    if li.pattern.length ≤ li.cursor_pos then (li, none)
    else
      let p := li.pattern.take li.cursor_pos
      ({ li with pattern := p }, some p)
  | some Action.DeleteLine =>
    if li.pattern.isEmpty then (li, none)
    else (⟨[], 0⟩, some [])
  | _ =>
    match ev.code with
    | KeyCode.Char c =>
      if !ev.modifiers.control && !ev.modifiers.alt && !ev.modifiers.other then
        (⟨insertAt li.pattern li.cursor_pos c, li.cursor_pos + 1⟩,
          some (insertAt li.pattern li.cursor_pos c))
      else (li, none)
    | _ => (li, none)

/-- The compiled (pattern `line`, replacement `replacement`) pair of the
round-trip scenario. -/
def rxLine : Rx := litRx "line".toList "replacement".toList

/-- Contents of `testdata/file1.txt`. -/
def fileOneText : Text :=
  "This is line one.\nThis is line two.\nThis is line three.\nLine four.\n".toList

/-- `testdata/file1.txt` after committing `line` → `replacement`. -/
def fileOneExpected : Text :=
  "This is replacement one.\nThis is replacement two.\nThis is replacement three.\nLine four.\n".toList

/-- App state for the round-trip scenario: the file is cached as matched
and the search has completed. -/
def appC1 : AppModel :=
  { re := some rxLine, subs := ["testdata/file1.txt"], search_rx := none, searches := 1 }

/-- Filesystem for the round-trip scenario; every path is writable. -/
def fsC1 : Fs :=
  { contents := fun q => if q = "testdata/file1.txt" then some fileOneText else none
    writable := fun _ => true }

/-- App state with two cached matched files. -/
def appC3 : AppModel :=
  { re := some rxLine, subs := ["f1", "f2"], search_rx := none, searches := 1 }

/-- Filesystem where `f1` cannot be read and `f2` contains a match. -/
def fsC3 : Fs :=
  { contents := fun q => if q = "f2" then some "line".toList else none
    writable := fun _ => true }

/-- Every file Commit will rewrite, in processing order: first the cached
results, then — when a search receiver is still pending — the files it
will deliver while draining. -/
def commitPaths (app : AppModel) : List String :=
  app.subs ++ (match app.search_rx with
    | none => []
    | some pending => pending.map (fun f => f.path))

/-- App state with two cached matched files and one still pending on the
search receiver. -/
def appC3W : AppModel :=
  { re := some rxLine, subs := ["f1", "f2"], search_rx := some [⟨"f3", []⟩], searches := 1 }

/-- Filesystem where `f1` and `f2` both contain a match and are readable,
but `f2` is not writable. -/
def fsC3W : Fs :=
  { contents := fun q =>
      if q = "f1" then some "line".toList
      else if q = "f2" then some "line".toList
      else none
    writable := fun q => q == "f1" }

/-- The regex crate's compiler on the inputs of interest: the pattern `(`
fails to compile (unclosed group); literal patterns compile. -/
def compileParen : Text → Option Rx :=
  fun p => if p = ['('] then none else some (litRx p [])

/-- App state mid-session: a regex is set, one result is cached, a search
has been started. -/
def appC4 : AppModel :=
  { re := some (litRx ['a'] []), subs := ["f"], search_rx := some [], searches := 1 }

theorem headTok_iff (p : Text) : headTok p = true ↔
    (∃ c, p.get? 0 = some '$' ∧ p.get? 1 = some c ∧ isMetaStart c = true) ∨
    (p.get? 0 = some '$' ∧ p.get? 1 = some '$' ∧ p.get? 2 = some '$') := by
  match p with
  | [] => simp [headTok]
  | [c] => simp [headTok]
  | c :: d :: rest =>
    simp only [headTok, Bool.and_eq_true, Bool.or_eq_true, beq_iff_eq, List.get?,
      Option.some.injEq]
    constructor
    · rintro ⟨hc, hd | ⟨hd, h3⟩⟩
      · exact Or.inl ⟨d, hc, rfl, hd⟩
      · refine Or.inr ⟨hc, hd, ?_⟩
        cases rest with
        | nil => simp at h3
        | cons e rest2 => simpa using h3
    · rintro (⟨c', hc, hd, hm⟩ | ⟨hc, hd, h3⟩)
      · cases hd; exact ⟨hc, Or.inl hm⟩
      · refine ⟨hc, Or.inr ⟨hd, ?_⟩⟩
        cases rest with
        | nil => simp at h3
        | cons e rest2 => simpa using h3

theorem structuralToken_cons (c : Char) (p : Text) :
    StructuralToken (c :: p) ↔
      (headTok (c :: p) = true ∨ StructuralToken p) := by
  rw [headTok_iff]
  constructor
  · rintro (⟨i, c', h0, h1, h2⟩ | ⟨i, h0, h1, h2⟩)
    · cases i with
      | zero => exact Or.inl (Or.inl ⟨c', h0, h1, h2⟩)
      | succ j => exact Or.inr (Or.inl ⟨j, c', h0, h1, h2⟩)
    · cases i with
      | zero => exact Or.inl (Or.inr ⟨h0, h1, h2⟩)
      | succ j => exact Or.inr (Or.inr ⟨j, h0, h1, h2⟩)
  · rintro ((⟨c', h0, h1, h2⟩ | ⟨h0, h1, h2⟩) | (⟨i, c', h0, h1, h2⟩ | ⟨i, h0, h1, h2⟩))
    · exact Or.inl ⟨0, c', h0, h1, h2⟩
    · exact Or.inr ⟨0, h0, h1, h2⟩
    · exact Or.inl ⟨i + 1, c', h0, h1, h2⟩
    · exact Or.inr ⟨i + 1, h0, h1, h2⟩

theorem is_ast_pattern_iff (p : Text) : is_ast_pattern p = true ↔ StructuralToken p := by
  induction p with
  | nil =>
    simp only [is_ast_pattern, StructuralToken]
    constructor
    · intro h; cases h
    · rintro (⟨i, c, h, _⟩ | ⟨i, h, _⟩) <;> simp [List.get?] at h
  | cons c rest ih =>
    rw [is_ast_pattern, Bool.or_eq_true, ih, structuralToken_cons]

/-- Claim C2: a pattern containing a structural placeholder token (a
`$`-prefixed capitalized metavariable or the wildcard-args token `$$$`)
always yields a structural (`Ast`) finder, regardless of regex validity;
any other pattern yields a `Regex` finder exactly when regex compilation
succeeds, and no finder when it fails. -/
theorem finder_new_classifies {R : Type} (compile : Text → RegexParams → Option R)
    (pat : Text) (params : RegexParams) :
    (StructuralToken pat → Finder.new compile pat params = some (.Ast pat)) ∧
    (¬ StructuralToken pat →
      Finder.new compile pat params = (compile pat params).map Finder.Regex) := by
  constructor
  · intro h
    unfold Finder.new
    rw [if_pos ((is_ast_pattern_iff pat).mpr h)]
  · intro h
    unfold Finder.new
    rw [if_neg (fun hb => h ((is_ast_pattern_iff pat).mp hb))]
    cases compile pat params <;> rfl

/-- Witness for C2: `$X` is classified structurally even though it would not
compile as a regex, at a concrete compile function rejecting everything. -/
theorem finder_new_classifies_witness :
    Finder.new (R := Unit) (fun _ _ => none) ['$', 'X'] ⟨false, false⟩ =
      some (.Ast ['$', 'X']) :=
  (finder_new_classifies (R := Unit) (fun _ _ => none) ['$', 'X'] ⟨false, false⟩).1
    (Or.inl ⟨0, 'X', rfl, rfl, by decide⟩)

/-- Claim C1: committing with pattern `line` and replacement `replacement`
rewrites the four-line file so that the three `line` occurrences become
`replacement` and the last line `Line four.` is unchanged; the rest of the
filesystem is untouched and Commit reports success. -/
theorem commit_round_trip :
    App.replace_all appC1 fsC1 = (fsWrite fsC1 "testdata/file1.txt" fileOneExpected, none) := by
  have h : Rx.replace_all rxLine fileOneText = fileOneExpected := by decide
  have h2 : App.replace_all appC1 fsC1 =
      (fsWrite fsC1 "testdata/file1.txt" (Rx.replace_all rxLine fileOneText), none) := rfl
  rw [h2, h]

/-- Claim C3 counterexample: with two cached matched files of which the
first fails to read, Commit returns that error at once and the second file
is left untouched — it still holds a match that replacement would have
changed, so the remaining files were not attempted. -/
theorem commit_abort_counterexample :
    (App.replace_all appC3 fsC3).2 = some (.readFailed "f1") ∧
    (App.replace_all appC3 fsC3).1.contents "f2" = some "line".toList ∧
    Rx.replace_all rxLine "line".toList = "replacement".toList := by
  exact ⟨rfl, rfl, by decide⟩

theorem replaceFiles_append (rx : Rx) (l1 l2 : List String) (fs : Fs) :
    replaceFiles rx (l1 ++ l2) fs =
      match replaceFiles rx l1 fs with
      | (fs1, none) => replaceFiles rx l2 fs1
      | (fs1, some e) => (fs1, some e) := by
  induction l1 generalizing fs with
  | nil => rfl
  | cons p ps ih =>
    simp only [List.cons_append, replaceFiles]
    cases hc : fs.contents p with
    | none => rfl
    | some text =>
      by_cases hw : fs.writable p = true
      · simp only [if_pos hw]
        exact ih (fsWrite fs p (rx.replace_all text))
      · simp only [if_neg hw]

theorem app_replace_all_eq_commitPaths (app : AppModel) (rx : Rx) (fs : Fs)
    (hre : app.re = some rx) :
    App.replace_all app fs = replaceFiles rx (commitPaths app) fs := by
  have h1 : App.replace_all app fs =
      (match replaceFiles rx app.subs fs with
        | (fs1, some e) => (fs1, some e)
        | (fs1, none) =>
          match app.search_rx with
          | none => (fs1, none)
          | some pending => replaceFiles rx (pending.map (fun f => f.path)) fs1) := by
    unfold App.replace_all
    rw [hre]
  rw [h1]
  unfold commitPaths
  rw [replaceFiles_append]
  cases hr : replaceFiles rx app.subs fs with
  | mk fs1 err =>
    cases err with
    | none => cases app.search_rx <;> rfl
    | some e => rfl

/-- Claim C3 (amended): a read or write failure on any matched file —
whether among the cached results or among those still pending on the
search receiver — aborts Commit immediately: that file's error propagates
to the caller, the filesystem is left exactly as it was at the point of
failure (files already rewritten stay rewritten), and the files after the
failing one are not attempted. -/
theorem commit_aborts_on_error (app : AppModel) (rx : Rx) (fs fs1 : Fs)
    (pre rest : List String) (p : String) (e : IoErr)
    (hre : app.re = some rx)
    (hsplit : commitPaths app = pre ++ p :: rest)
    (hpre : replaceFiles rx pre fs = (fs1, none))
    (herr : (fs1.contents p = none ∧ e = .readFailed p) ∨
      (∃ text, fs1.contents p = some text ∧ fs1.writable p = false ∧
        e = .writeFailed p)) :
    App.replace_all app fs = (fs1, some e) := by
  rw [app_replace_all_eq_commitPaths app rx fs hre, hsplit, replaceFiles_append, hpre]
  show replaceFiles rx (p :: rest) fs1 = (fs1, some e)
  unfold replaceFiles
  rcases herr with ⟨hc, he⟩ | ⟨text, hc, hw, he⟩
  · rw [hc, he]
  · rw [hc, he]
    simp only [if_neg (by simp [hw] : ¬ fs1.writable p = true)]

/-- Witness for the amended C3: the first cached file is rewritten, the
write to the second fails and is the error Commit returns, and the file
still pending on the receiver is never attempted. -/
theorem commit_aborts_on_error_witness :
    App.replace_all appC3W fsC3W =
      (fsWrite fsC3W "f1" "replacement".toList, some (.writeFailed "f2")) :=
  commit_aborts_on_error appC3W rxLine fsC3W
    (fsWrite fsC3W "f1" "replacement".toList) ["f1"] ["f3"] "f2"
    (.writeFailed "f2") rfl rfl rfl
    (Or.inr ⟨"line".toList, rfl, rfl, rfl⟩)

/-- Claim C4 counterexample: editing the pattern to the invalid regex `(`
leaves the application state — including the previously accumulated
results — completely unchanged: `subs` is not cleared. -/
theorem update_pattern_counterexample :
    App.update_pattern compileParen ['('] appC4 = appC4 ∧ appC4.subs ≠ [] := by
  exact ⟨rfl, by decide⟩

/-- Claim C4 (amended): accumulated results are cleared exactly when the
edited pattern compiles.  On compile failure nothing changes: the previous
results and regex are kept and no search is started.  On success the new
regex is set, one new search is started, and the results are cleared. -/
theorem update_pattern_spec (compile : Text → Option Rx) (pat : Text) (app : AppModel) :
    (compile pat = none → App.update_pattern compile pat app = app) ∧
    (∀ re, compile pat = some re →
      App.update_pattern compile pat app =
        { app with
          re := some re
          searches := app.searches + 1
          search_rx := some []
          subs := [] }) := by
  constructor
  · intro h
    unfold App.update_pattern
    rw [h]
  · intro re h
    unfold App.update_pattern
    rw [h]

/-- Witness for the amended C4 at a concrete state and valid pattern. -/
theorem update_pattern_spec_witness :
    App.update_pattern compileParen ['a'] appC4 =
      { appC4 with
        re := some (litRx ['a'] [])
        searches := appC4.searches + 1
        search_rx := some []
        subs := [] } :=
  (update_pattern_spec compileParen ['a'] appC4).2 (litRx ['a'] []) rfl

/-- Claim C5 counterexample: for the pattern `\Ba` with replacement `X` on
the text `ba`, the only match is the final `a` and Commit's whole-file
replacement writes `bX` — the match becomes `X` — but the per-match
preview applies `replace_all` to the extracted sub-text `a` alone, where
`\Ba` no longer matches, so the preview is the unchanged `a`. -/
theorem preview_commit_counterexample :
    (rxNonBoundaryA ['X']).find_iter ['b', 'a'] = [⟨1, 2, ['X']⟩] ∧
    Rx.replace_all (rxNonBoundaryA ['X']) ['b', 'a'] = ['b', 'X'] ∧
    (textSubstitutionMatches (rxNonBoundaryA ['X']) ['b', 'a']).map
      Substitution.replacement = [['a']] ∧
    (textSubstitutionMatches (rxNonBoundaryA ['X']) ['b', 'a']).map
      Substitution.replacement ≠
      ((rxNonBoundaryA ['X']).find_iter ['b', 'a']).map Mtch.repl := by
  exact ⟨by decide, by decide, by decide, by decide⟩

/-- Claim C5 (amended): the per-match preview equals the replacement text
Commit writes for that match whenever re-running the pattern on the
extracted sub-text reproduces the original match — a single match covering
the whole sub-text with the same expanded replacement.  (Patterns whose
matching depends on surrounding context, such as zero-width assertions,
can match differently on the extracted sub-text; see the counterexample.) -/
theorem preview_matches_commit (rx : Rx) (text : Text) (i : Nat) (m : Mtch)
    (hm : (rx.find_iter text).get? i = some m)
    (hself : rx.find_iter (listExtract text m.start m.stop) =
      [⟨0, (listExtract text m.start m.stop).length, m.repl⟩]) :
    ((textSubstitutionMatches rx text).get? i).map Substitution.replacement =
      some m.repl := by
  unfold textSubstitutionMatches
  rw [List.get?_map, hm]
  show some (Rx.replace_all rx (listExtract text m.start m.stop)) = some m.repl
  congr 1
  unfold Rx.replace_all
  rw [hself]
  unfold spliceGo
  unfold spliceGo
  simp [listExtract, List.drop_length]

/-- Witness for the amended C5: a literal pattern's preview matches what
Commit writes. -/
theorem preview_matches_commit_witness :
    ((textSubstitutionMatches (litRx ['a'] ['X']) ['b', 'a']).get? 0).map
      Substitution.replacement = some ['X'] :=
  preview_matches_commit (litRx ['a'] ['X']) ['b', 'a'] 0 ⟨1, 2, ['X']⟩
    (by decide) (by decide)

/-- Claim C6: for a file in which the finder finds zero matching lines,
walk sends no FileMatch on the channel: it just continues the walk. -/
theorem walk_no_match_no_send (find : String → Except IoErr (List LineMatch))
    (de : DirEntry) (b : Bool) (txOpen : Bool) (hmeta : de.meta = .ok b)
    (hfind : find de.path = .ok []) :
    walk find (.ok de) txOpen = .ok (.Continue, none) := by
  cases b <;> simp [walk, hmeta, hfind]

/-- Witness for C6 at a concrete entry and finder. -/
theorem walk_no_match_no_send_witness :
    walk (fun _ => .ok []) (.ok ⟨"empty.txt", .ok true⟩) true = .ok (.Continue, none) :=
  walk_no_match_no_send (fun _ => .ok []) ⟨"empty.txt", .ok true⟩ true true rfl rfl

/-- Claim C7 counterexample: with a completely invalid root path — the
walker yields one error entry for it — search logs the error during the
walk and still returns Ok to its caller: no fatal setup error is reported
before the walk starts. -/
theorem search_invalid_root_counterexample :
    searchRun (fun _ => .ok []) true [.error (.walkFailed "invalid root path")] =
      ⟨[], [.walkFailed "invalid root path"], .ok ()⟩ := rfl

/-- Claim C7 (amended): an invalid root path is not a pre-walk fatal
error: it reaches the search loop as a per-entry error, is logged, the
remaining entries are still processed, and search always returns Ok to its
caller. -/
theorem search_logs_root_error (find : String → Except IoErr (List LineMatch))
    (txOpen : Bool) (e : IoErr) (rest : List (Except IoErr DirEntry)) :
    searchRun find txOpen (.error e :: rest) =
      ⟨(searchRun find txOpen rest).sent, e :: (searchRun find txOpen rest).logged,
        (searchRun find txOpen rest).result⟩ ∧
    ∀ entries, (searchRun find txOpen entries).result = .ok () := by
  constructor
  · rfl
  · intro entries
    induction entries with
    | nil => rfl
    | cons entry more ih =>
      unfold searchRun
      cases hw : walk find entry txOpen with
      | ok s =>
        rcases s with ⟨st, m⟩
        cases st <;> simp [ih]
      | error e2 => simp [ih]

/-- Claim C8: every LineMatch produced by either finder has all of its
sub-ranges within the bounds of its text, given the regex engine's
guarantee that the ranges it reports lie within the searched haystack. -/
theorem finder_ranges_in_bounds (rangesOf : Text → List (Nat × Nat))
    (searcherLines astNodes : List (Nat × Text))
    (hengine : ∀ nt ∈ searcherLines, ∀ r ∈ rangesOf nt.2, r.1 ≤ r.2 ∧ r.2 ≤ nt.2.length) :
    ∀ lm, (lm ∈ regexFinderFind rangesOf searcherLines ∨ lm ∈ astFinderFind astNodes) →
      ∀ r ∈ lm.ranges, r.1 ≤ r.2 ∧ r.2 ≤ lm.text.length := by
  rintro lm (hmem | hmem) r hr
  · rcases List.mem_map.mp hmem with ⟨nt, hnt, rfl⟩
    exact hengine nt hnt r hr
  · rcases List.mem_map.mp hmem with ⟨nt, hnt, rfl⟩
    simp only [List.mem_singleton] at hr
    subst hr
    exact ⟨Nat.zero_le _, le_refl _⟩

/-- Witness for C8 with a concrete literal engine, one searched line and
no structural nodes. -/
theorem finder_ranges_in_bounds_witness :
    (0, 1).1 ≤ (0, 1).2 ∧
      (0, 1).2 ≤ (⟨1, ['a', 'b'], litRanges ['a'] ['a', 'b']⟩ : LineMatch).text.length :=
  finder_ranges_in_bounds (litRanges ['a']) [(1, ['a', 'b'])] [] (by decide)
    ⟨1, ['a', 'b'], litRanges ['a'] ['a', 'b']⟩ (Or.inl (by decide)) (0, 1) (by decide)

/-- Claim C9: when no compiled regex is set, Commit returns success
immediately and the filesystem is unchanged — no file is read or written. -/
theorem commit_no_regex_no_effect (app : AppModel) (fs : Fs) (h : app.re = none) :
    App.replace_all app fs = (fs, none) := by
  unfold App.replace_all
  rw [h]

/-- Witness for C9 at a concrete state with cached results but no regex. -/
theorem commit_no_regex_no_effect_witness :
    App.replace_all ⟨none, ["f"], some [], 3⟩ fsC1 = (fsC1, none) :=
  commit_no_regex_no_effect ⟨none, ["f"], some [], 3⟩ fsC1 rfl

theorem rfindIdx_lt_length (p : Char → Bool) (l : Text) (i : Nat)
    (h : rfindIdx p l = some i) : i < l.length := by
  induction l generalizing i with
  | nil => simp [rfindIdx] at h
  | cons c rest ih =>
    unfold rfindIdx at h
    cases hr : rfindIdx p rest with
    | some j =>
      rw [hr] at h
      simp only [Option.some.injEq] at h
      have := ih j hr
      simp only [List.length_cons]
      omega
    | none =>
      rw [hr] at h
      by_cases hpc : p c
      · simp only [if_pos hpc, Option.some.injEq] at h
        simp only [List.length_cons]
        omega
      · simp [if_neg hpc] at h

theorem trimEnd_length_le (l : Text) : (trimEnd l).length ≤ l.length := by
  unfold trimEnd
  rw [List.length_reverse]
  calc (l.reverse.dropWhile Char.isWhitespace).length
      ≤ l.reverse.length := (List.dropWhile_sublist Char.isWhitespace).length_le
    _ = l.length := List.length_reverse l

/-- Claim C10: for every line-editor state whose cursor lies within the
pattern, every key event and every key map, `handle_key_event` keeps the
cursor within the (possibly changed) pattern: the cursor never points past
its end, for every editing action and for plain character insertion. -/
theorem handle_key_event_cursor_le (li : LineInput) (ev : KeyEvent)
    (key_map : Key → Option Action) (h : li.cursor_pos ≤ li.pattern.length) :
    (li.handle_key_event ev key_map).1.cursor_pos ≤
      (li.handle_key_event ev key_map).1.pattern.length := by
  unfold LineInput.handle_key_event
  split
  · -- CursorLeft
    simp only
    omega
  · -- CursorRight
    simp only
    omega
  · -- CursorHome
    simp only
    omega
  · -- CursorEnd
    simp only
    omega
  · -- DeleteChar
    split
    · exact h
    · rename_i hlt
      simp only
      have := List.length_eraseIdx_add_one
        (show li.cursor_pos < li.pattern.length by omega)
      omega
  · -- DeleteCharBackward
    split
    · exact h
    · rename_i hne
      simp only
      have := List.length_eraseIdx_add_one
        (show li.cursor_pos - 1 < li.pattern.length by omega)
      omega
  · -- DeleteWord
    split
    · exact h
    · rename_i hne
      dsimp only
      split
      · rename_i idx hidx
        have h1 : idx < (trimEnd (li.pattern.take li.cursor_pos)).length :=
          rfindIdx_lt_length _ _ _ hidx
        have h2 := trimEnd_length_le (li.pattern.take li.cursor_pos)
        have h3 : idx + 1 ≤ (li.pattern.take li.cursor_pos).length := by omega
        rw [List.length_take] at h3
        simp only [List.length_append, List.length_take, List.length_drop]
        omega
      · simp only
        omega
  · -- DeleteToEndOfLine
    split
    · exact h
    · simp only [List.length_take]
      omega
  · -- DeleteLine
    split
    · exact h
    · simp only
      omega
  · -- fall-through: plain character insertion
    split
    · split
      · simp only [insertAt, List.length_append, List.length_take, List.length_cons,
          List.length_drop]
        omega
      · exact h
    · exact h

/-- Witness for C10: inserting a character at the end of a one-character
pattern keeps the cursor in bounds. -/
theorem handle_key_event_cursor_le_witness :
    ((⟨['a'], 1⟩ : LineInput).handle_key_event ⟨.Char 'b', ⟨false, false, false, false⟩⟩
        (fun _ => none)).1.cursor_pos ≤
      ((⟨['a'], 1⟩ : LineInput).handle_key_event ⟨.Char 'b', ⟨false, false, false, false⟩⟩
        (fun _ => none)).1.pattern.length :=
  handle_key_event_cursor_le ⟨['a'], 1⟩ ⟨.Char 'b', ⟨false, false, false, false⟩⟩
    (fun _ => none) (by decide)

end Lasr
